import Mathlib

/-!
Shallow embedding of the PPO trainer in `src/agent.py` and `src/learn.py`
(aadeshnpn/super-mario-agent).

Tensors are modelled as lists of rationals and tensor reductions as list
operations.  The exponential provided by the tensor runtime is an abstract
parameter `texp : ℚ → ℚ`, since the numeric runtime is external to the
repository.  The training loop of `learn` is modelled as a trace of events
(one event per call into the actor-critic, the environments, the storage, the
optimizer, the logger and the checkpoint writer), with the `episode_rewards`
deque threaded through the loop as explicit state.
-/

/-- Constant `_STARTING_LR = 5.5e-4` from `agent.py`. -/
def _STARTING_LR : ℚ := 55 / 100000

/-- Constant `MAX_X = 3161` from `learn.py`. -/
def MAX_X : ℕ := 3161

/-- Mean of a one-dimensional tensor, `torch.Tensor.mean`. -/
def tmean (xs : List ℚ) : ℚ := xs.sum / xs.length

/-- Scalar `torch.clamp(x, lo, hi)`: `x` clipped into the interval `[lo, hi]`
(lower bound applied first, as in the runtime). -/
def tclamp (lo hi x : ℚ) : ℚ := min (max x lo) hi

/-- Function `PPOAgent._policy_loss` from `agent.py` lines 90–98:
`ratio = exp(new − old)` elementwise, `ratio_term = ratio * advantages`,
`clamp_term = clamp(ratio, 1−clip, 1+clip) * advantages`, and the result is
the negated mean of the elementwise minimum of the two terms.  `texp` is the
runtime exponential. -/
def _policy_loss (texp : ℚ → ℚ) (clip_threshold : ℚ)
    (action_log_probs old_action_log_probs advantage_targets : List ℚ) : ℚ :=
  let ratio := List.zipWith (fun a b => texp (a - b))
    action_log_probs old_action_log_probs
  let ratio_term := List.zipWith (· * ·) ratio advantage_targets
  let clamp := ratio.map (tclamp (1 - clip_threshold) (1 + clip_threshold))
  let clamp_term := List.zipWith (· * ·) clamp advantage_targets
  let policy_loss := -(tmean (List.zipWith min ratio_term clamp_term))
  policy_loss

/-- Value loss from `agent.py` line 67:
`0.5 * (returns - values).pow(2).mean()`. -/
def value_loss_calc (returns values : List ℚ) : ℚ :=
  (1 / 2) * tmean ((List.zipWith (fun r v => r - v) returns values).map
    (fun d => d ^ 2))

/-- Total minibatch loss from `agent.py` lines 64–71:
`policy_loss + value_loss_coef * value_loss - entropy_coef * entropy`,
where `policy_loss` and `value_loss` are computed by `_policy_loss` and the
squared-error expression on the same minibatch. -/
def update_minibatch_loss (value_loss_coef entropy_coef clip_threshold : ℚ)
    (texp : ℚ → ℚ) (values action_log_probs : List ℚ)
    (action_dist_entropy : ℚ)
    (old_action_log_probs advantage_targets returns : List ℚ) : ℚ :=
  _policy_loss texp clip_threshold action_log_probs old_action_log_probs
      advantage_targets
    + value_loss_coef * value_loss_calc returns values
    - entropy_coef * action_dist_entropy

/-- Hyperparameters bound by `Agent.__init__` (`agent.py` lines 17–30).
`lr_lambda` maps a scheduler epoch to a multiplicative factor. -/
structure AgentConfig where
  lr : ℚ
  lr_lambda : ℕ → ℚ
  value_loss_coef : ℚ
  entropy_coef : ℚ
  max_grad_norm : ℚ

/-- The `AgentConfig` produced by `Agent.__init__` when every keyword uses its
default: `lr = 5.5e-4`, `lr_lambda = lambda _: 5.5e-4`,
`value_loss_coef = 0.5`, `entropy_coef = 0.001`, `max_grad_norm = 0.5`. -/
def Agent_init_defaults : AgentConfig :=
  ⟨_STARTING_LR, fun _ => _STARTING_LR, 1 / 2, 1 / 1000, 1 / 2⟩

/-- Semantics of `torch.optim.lr_scheduler.LambdaLR` (external library, as
documented): the scheduled learning rate is the optimizer's base learning rate
multiplied by `lr_lambda` evaluated at the scheduler's current epoch. -/
def LambdaLR_get_lr (base_lr : ℚ) (lr_lambda : ℕ → ℚ) (last_epoch : ℕ) : ℚ :=
  base_lr * lr_lambda last_epoch

/-- Method `Agent.current_lr` (`agent.py` lines 32–34): destructures the singleton
list returned by the scheduler's `get_lr`. -/
def current_lr (cfg : AgentConfig) (last_epoch : ℕ) : ℚ :=
  LambdaLR_get_lr cfg.lr cfg.lr_lambda last_epoch

/-- A Python exception class relevant to constructor argument binding. -/
inductive PyError
  | typeError
deriving DecidableEq, Repr

/-- Keyword arguments: an association list from keyword name to (numeric)
value.  Only the keys matter for argument binding. -/
abbrev Kwargs := List (String × ℚ)

/-- The keyword parameters accepted by `Agent.__init__` besides the positional
`actor_critic` (`agent.py` lines 17–23). -/
def AGENT_KEYWORDS : List String :=
  ["lr", "lr_lambda", "value_loss_coef", "entropy_coef", "max_grad_norm"]

/-- Python call semantics for `Agent.__init__(**kwargs)`: binding succeeds
exactly when every keyword names a declared parameter; an unexpected keyword
raises `TypeError`. -/
def Agent_init (kwargs : Kwargs) : Except PyError Unit :=
  if kwargs.all (fun kv => AGENT_KEYWORDS.contains kv.1) then
    Except.ok ()
  else
    Except.error PyError.typeError

/-- Python `dict.pop(key, default)`: the stored value when present (removing it),
the default otherwise. -/
def kwpop (kwargs : Kwargs) (key : String) (default : ℚ) : ℚ × Kwargs :=
  match kwargs.lookup key with
  | some v => (v, kwargs.eraseP (fun kv => kv.1 == key))
  | none => (default, kwargs)

/-- The attributes set by `PPOAgent.__init__` (`agent.py` lines 47–49). -/
structure PPOAgentState where
  clip_threshold : ℚ
  epochs : ℚ
  minibatches : ℚ
deriving DecidableEq, Repr

/-- Constructor `PPOAgent.__init__` (`agent.py` lines 43–49): first forwards **all**
keyword arguments to `Agent.__init__` (propagating its `TypeError` if any
keyword is unexpected there), and only afterwards pops `clip_threshold`,
`epochs` and `minibatches` with defaults `0.2`, `4` and `16`. -/
def PPOAgent_init (kwargs : Kwargs) : Except PyError PPOAgentState :=
  match Agent_init kwargs with
  | Except.error e => Except.error e
  | Except.ok _ =>
    let p1 := kwpop kwargs "clip_threshold" (1 / 5)
    let p2 := kwpop p1.2 "epochs" 4
    let p3 := kwpop p2.2 "minibatches" 16
    Except.ok ⟨p1.1, p2.1, p3.1⟩

/-- Loss averaging of `PPOAgent.update` (`agent.py` lines 52, 79–85): each
loss key accumulates from `0` over the executed minibatch steps (`epochs`
iterations of a generator yielding `batches_yielded` batches), then is divided
by the configured `epochs * minibatches` — not by the number of executed
steps.  `batch_loss ep b` is the loss recorded on batch `b` of epoch `ep`. -/
def update_reported_loss (epochs batches_yielded minibatches : ℕ)
    (batch_loss : ℕ → ℕ → ℚ) : ℚ :=
  let total := (List.range epochs).foldl
    (fun acc ep => (List.range batches_yielded).foldl
      (fun acc2 b => acc2 + batch_loss ep b) acc) 0
  total / ((epochs * minibatches : ℕ) : ℚ)

/-- One event per call the training code makes into the actor-critic, the
environments, the experience storage, the optimizer, the scheduler, the
metrics sink or the checkpoint writer. -/
inductive Event
  | act
  | envStep
  | insertExperience
  | bootstrapValue
  | computeReturns
  | computeAdvantages
  | schedulerStep
  | evalActions
  | zeroGrad
  | backward
  | clipGradNorm
  | optimizerStep
  | afterUpdate
  | logMetrics
  | saveCheckpoint (path : String)
deriving DecidableEq, Repr

/-- Events of one gradient step on one minibatch (`agent.py` lines 59–77):
evaluate actions, zero gradients, backpropagate, clip the gradient norm, and
take one optimizer step. -/
def batchEvents : List Event :=
  [Event.evalActions, Event.zeroGrad, Event.backward, Event.clipGradNorm,
   Event.optimizerStep]

/-- Events of `PPOAgent.update` (`agent.py` lines 51–88): compute advantages,
step the scheduler, then for each of `epochs` epochs run one gradient step per
minibatch yielded by `experience_storage.batches` (the generator yields
`batches_yielded` minibatches each epoch), and finally `after_update`. -/
def PPOAgent_update_events (epochs batches_yielded : ℕ) : List Event :=
  [Event.computeAdvantages, Event.schedulerStep]
    ++ (List.range epochs).flatMap
      (fun _ => (List.range batches_yielded).flatMap (fun _ => batchEvents))
    ++ [Event.afterUpdate]

/-- Events of one iteration of the inner collection loop (`learn.py` lines
51–73): `actor_critic.act`, `envs.step`, `experience_storage.insert`. -/
def stepEvents : List Event :=
  [Event.act, Event.envStep, Event.insertExperience]

/-- Python `collections.deque(maxlen=n).append`: appends on the right, discarding the
leftmost element when the deque is full. -/
def dequeAppend (maxlen : ℕ) (q : List ℚ) (x : ℚ) : List ℚ :=
  if q.length < maxlen then q ++ [x] else q.drop 1 ++ [x]

/-- Episode bookkeeping of one collection step (`learn.py` lines 70–73): for
each environment whose transition reports `done`, append
`info['x_pos'] / MAX_X` to the `episode_rewards` deque (maxlen 16).
`infos_step` holds each environment's `(done, x_pos)` for this step. -/
def recordEpisodes (q : List ℚ) (infos_step : List (Bool × ℕ)) : List ℚ :=
  infos_step.foldl
    (fun acc di =>
      if di.1 then dequeAppend 16 acc ((di.2 : ℚ) / (MAX_X : ℚ)) else acc) q

/-- The inner collection loop of `learn` (`learn.py` lines 51–73), processing
`steps` consecutive global steps starting at `base`: emits the per-step events
and threads the `episode_rewards` deque.  `infos` maps a global step index to
the per-environment `(done, x_pos)` pairs returned by `envs.step` there. -/
def collectGo (infos : ℕ → List (Bool × ℕ)) :
    ℕ → ℕ → List ℚ → List Event × List ℚ
  | _, 0, q => ([], q)
  | base, s + 1, q =>
    let rest := collectGo infos (base + 1) s (recordEpisodes q (infos base))
    (stepEvents ++ rest.1, rest.2)

/-- Checkpoint predicate of `learn` (`learn.py` line 107):
`(update_step % save_interval) == (save_interval - 1)`. -/
def save_model (update_step save_interval : ℕ) : Bool :=
  update_step % save_interval == save_interval - 1

/-- Checkpoint path of `learn` (`learn.py` line 109):
`'models/model_{}.bin'.format(update_step + 1)`. -/
def model_path (update_step : ℕ) : String :=
  "models/model_" ++ toString (update_step + 1) ++ ".bin"

/-- One iteration of the outer loop of `learn` (`learn.py` lines 50–110):
collect `steps` steps (starting at global step `i * steps`), bootstrap the
next value, compute returns, run the PPO update, log metrics when the
`episode_rewards` deque is non-empty, and write a checkpoint when
`save_model` holds.  Returns the iteration's events and the updated deque. -/
def iterationEvents (infos : ℕ → List (Bool × ℕ))
    (steps epochs batches_yielded save_interval : ℕ) (i : ℕ) (q : List ℚ) :
    List Event × List ℚ :=
  let c := collectGo infos (i * steps) steps q
  (c.1 ++ [Event.bootstrapValue, Event.computeReturns]
      ++ PPOAgent_update_events epochs batches_yielded
      ++ (if c.2.isEmpty then [] else [Event.logMetrics])
      ++ (if save_model i save_interval then
            [Event.saveCheckpoint (model_path i)] else []),
   c.2)

/-- The outer loop of `learn`, running iterations `i, i+1, …` for `fuel`
iterations and threading the `episode_rewards` deque. -/
def learnGo (infos : ℕ → List (Bool × ℕ))
    (steps epochs batches_yielded save_interval : ℕ) :
    ℕ → ℕ → List ℚ → List Event
  | _, 0, _ => []
  | i, fuel + 1, q =>
    let it := iterationEvents infos steps epochs batches_yielded
      save_interval i q
    it.1 ++ learnGo infos steps epochs batches_yielded save_interval
      (i + 1) fuel it.2

/-- Number of outer-loop iterations (`learn.py` line 46):
`total_steps // (num_envs * steps_per_update)`. -/
def num_updates (total_steps num_envs steps_per_update : ℕ) : ℕ :=
  total_steps / (num_envs * steps_per_update)

/-- Full event trace of `learn` (`learn.py` lines 50–110): `n` outer
iterations starting from update step `0` with an empty `episode_rewards`
deque. -/
def learnEvents (infos : ℕ → List (Bool × ℕ))
    (steps epochs batches_yielded save_interval n : ℕ) : List Event :=
  learnGo infos steps epochs batches_yielded save_interval 0 n []

/-- The level-completion fractions recorded during one collection step: for
each `done` environment, `x_pos / MAX_X`, in environment order. -/
def stepCompletions (infos_step : List (Bool × ℕ)) : List ℚ :=
  infos_step.filterMap
    (fun di => if di.1 then some ((di.2 : ℚ) / (MAX_X : ℚ)) else none)

/-- All level-completion fractions recorded during the first `m` global
steps, in order. -/
def completions (infos : ℕ → List (Bool × ℕ)) (m : ℕ) : List ℚ :=
  (List.range m).flatMap (fun j => stepCompletions (infos j))

/-- The last `n` elements of a list. -/
def takeLast (n : ℕ) (l : List ℚ) : List ℚ := l.drop (l.length - n)

/-- The `episode_rewards` deque after the first `m` global collection
steps. -/
def qState (infos : ℕ → List (Bool × ℕ)) : ℕ → List ℚ
  | 0 => []
  | m + 1 => recordEpisodes (qState infos m) (infos m)

/-- Strict sequential execution of a list of runtime calls in a fallible
runtime: each event's call either succeeds or raises, and `learn` /
`PPOAgent.update` contain no handler, so the first raised error is the
result. -/
def runEvents {ε : Type} (outcome : Event → Except ε Unit) :
    List Event → Except ε Unit
  | [] => Except.ok ()
  | e :: rest =>
    match outcome e with
    | Except.ok _ => runEvents outcome rest
    | Except.error err => Except.error err

/-- Stated from the specification's wording (C1): the per-element
clipped-ratio PPO objective
`min(ratio * advantage, clamp(ratio, 1 − eps, 1 + eps) * advantage)` with
`ratio = exp(new_log_prob − old_log_prob)`.  `p` packs the new and old
log-probabilities of one element. -/
def clipped_objective (texp : ℚ → ℚ) (eps : ℚ) (p : ℚ × ℚ) (advantage : ℚ) :
    ℚ :=
  min (texp (p.1 - p.2) * advantage)
    (tclamp (1 - eps) (1 + eps) (texp (p.1 - p.2)) * advantage)

/-- Stated from the specification's wording (C2): the event sequence of one
full iteration `j` of the training loop — `steps` collection steps, then the
bootstrap value, then the return back-fill, then the PPO update (epochs of one
gradient step per yielded minibatch), then the metric emission and checkpoint
bookkeeping. -/
def iterationShape (infos : ℕ → List (Bool × ℕ))
    (steps epochs batches_yielded save_interval : ℕ) (j : ℕ) : List Event :=
  List.flatten (List.replicate steps stepEvents)
    ++ [Event.bootstrapValue, Event.computeReturns]
    ++ PPOAgent_update_events epochs batches_yielded
    ++ (if qState infos ((j + 1) * steps) = [] then [] else [Event.logMetrics])
    ++ (if save_model j save_interval then
          [Event.saveCheckpoint (model_path j)] else [])

section Lemmas

/-- Distributing the elementwise minimum of the ratio term and the clamp term
over a single zip of the inputs. -/
theorem zipWith_min_mul (f : ℚ → ℚ → ℚ) (g : ℚ → ℚ) :
    ∀ (a b c : List ℚ),
      List.zipWith min (List.zipWith (· * ·) (List.zipWith f a b) c)
        (List.zipWith (· * ·) ((List.zipWith f a b).map g) c)
      = List.zipWith (fun p adv => min (f p.1 p.2 * adv) (g (f p.1 p.2) * adv))
          (a.zip b) c
  | [], _, _ => by simp
  | _ :: _, [], _ => by simp
  | _ :: _, _ :: _, [] => by simp
  | x :: a, y :: b, z :: c => by
    simpa using zipWith_min_mul f g a b c

end Lemmas

/-- C1: `PPOAgent._policy_loss` returns the negative mean over elements of
`min(ratio * advantage, clamp(ratio, 1 − eps, 1 + eps) * advantage)` with
`ratio = exp(new − old)`, i.e. the clipped-ratio PPO objective; the clip
threshold of a default-constructed `PPOAgent` is `0.2`. -/
theorem policy_loss_is_clipped_ppo_objective :
    (∀ (texp : ℚ → ℚ) (eps : ℚ) (alp oalp adv : List ℚ),
      _policy_loss texp eps alp oalp adv
        = -(tmean (List.zipWith (clipped_objective texp eps) (alp.zip oalp)
            adv)))
    ∧ PPOAgent_init [] = Except.ok ⟨1 / 5, 4, 16⟩ := by
  constructor
  · intro texp eps alp oalp adv
    simp only [_policy_loss]
    rw [zipWith_min_mul (fun a b => texp (a - b))
      (tclamp (1 - eps) (1 + eps)) alp oalp adv]
    rfl
  · rfl

/-- C3: the total loss optimized on every minibatch equals
`policy_loss + value_loss_coef * (0.5 * mean((returns − values)²))
− entropy_coef * entropy`, and `Agent.__init__` defaults the coefficients to
`value_loss_coef = 0.5` and `entropy_coef = 0.001`. -/
theorem update_total_loss_formula :
    (∀ (vlc ec clip : ℚ) (texp : ℚ → ℚ) (values alp : List ℚ) (entropy : ℚ)
        (oalp adv returns : List ℚ),
      update_minibatch_loss vlc ec clip texp values alp entropy oalp adv
          returns
        = _policy_loss texp clip alp oalp adv
          + vlc * ((1 / 2)
            * tmean (List.zipWith (fun r v => (r - v) ^ 2) returns values))
          - ec * entropy)
    ∧ Agent_init_defaults.value_loss_coef = 1 / 2
    ∧ Agent_init_defaults.entropy_coef = 1 / 1000 := by
  refine ⟨fun vlc ec clip texp values alp entropy oalp adv returns => ?_,
    rfl, rfl⟩
  simp only [update_minibatch_loss, value_loss_calc,
    List.map_zipWith]

/-- C10: with all defaults the scheduler multiplies the base learning rate
`5.5e-4` by the constant default `lr_lambda` value `5.5e-4`, so
`Agent.current_lr` reports `5.5e-4 * 5.5e-4 = 3.025e-7`, not `5.5e-4`. -/
theorem current_lr_default_is_squared :
    (∀ last_epoch : ℕ,
      current_lr Agent_init_defaults last_epoch = _STARTING_LR * _STARTING_LR)
    ∧ _STARTING_LR * _STARTING_LR = 121 / 400000000
    ∧ current_lr Agent_init_defaults 0 ≠ _STARTING_LR := by
  refine ⟨fun _ => rfl, by norm_num [_STARTING_LR], ?_⟩
  norm_num [current_lr, Agent_init_defaults, LambdaLR_get_lr, _STARTING_LR]

section KwargsLemmas

/-- A key that no entry of the keyword dictionary carries is not found by
`lookup`. -/
theorem lookup_eq_none_of_key_not_elem (key : String) :
    ∀ kwargs : Kwargs, (∀ kv ∈ kwargs, kv.1 ≠ key) →
      kwargs.lookup key = none
  | [], _ => rfl
  | kv :: rest, h => by
    have hne : key ≠ kv.1 := fun e => h kv (List.mem_cons_self kv rest) e.symm
    simp only [List.lookup, beq_eq_false_iff_ne.mpr hne]
    exact lookup_eq_none_of_key_not_elem key rest
      (fun kv2 hm => h kv2 (List.mem_cons_of_mem kv hm))

/-- Python `dict.pop(key, default)` returns the default and leaves the dictionary
unchanged when the key is absent. -/
theorem kwpop_of_not_elem (key : String) (default : ℚ) (kwargs : Kwargs)
    (h : ∀ kv ∈ kwargs, kv.1 ≠ key) :
    kwpop kwargs key default = (default, kwargs) := by
  simp only [kwpop, lookup_eq_none_of_key_not_elem key kwargs h]

end KwargsLemmas

/-- C4: passing any of `clip_threshold`, `epochs`, `minibatches` as a keyword
to `PPOAgent.__init__` raises `TypeError` (every keyword is forwarded to
`Agent.__init__`, which accepts none of them, before they are popped), so
every successfully constructed `PPOAgent` has clip threshold `0.2`, `4`
epochs and `16` minibatches. -/
theorem ppo_init_rejects_own_kwargs :
    ∀ kwargs : Kwargs,
      ((∃ kv ∈ kwargs, kv.1 = "clip_threshold" ∨ kv.1 = "epochs"
          ∨ kv.1 = "minibatches") →
        PPOAgent_init kwargs = Except.error PyError.typeError)
      ∧ (∀ st : PPOAgentState, PPOAgent_init kwargs = Except.ok st →
          st.clip_threshold = 1 / 5 ∧ st.epochs = 4 ∧ st.minibatches = 16) := by
  intro kwargs
  constructor
  · rintro ⟨kv, hmem, hkey⟩
    have hall : kwargs.all (fun kv => AGENT_KEYWORDS.contains kv.1) = false := by
      rw [Bool.eq_false_iff]
      intro hall
      rw [List.all_eq_true] at hall
      have := hall kv hmem
      rcases hkey with h | h | h <;> rw [h] at this <;>
        simp [AGENT_KEYWORDS] at this
    simp only [PPOAgent_init, Agent_init, hall, Bool.false_eq_true, if_false]
  · intro st hok
    have hall : kwargs.all (fun kv => AGENT_KEYWORDS.contains kv.1) = true := by
      by_contra hneg
      rw [Bool.not_eq_true] at hneg
      simp only [PPOAgent_init, Agent_init, hneg, Bool.false_eq_true,
        if_false] at hok
      exact Except.noConfusion hok
    have hkeys : ∀ kv ∈ kwargs, kv.1 ∈ AGENT_KEYWORDS := by
      intro kv hmem
      rw [List.all_eq_true] at hall
      have := hall kv hmem
      exact List.mem_of_elem_eq_true this
    have hnone : ∀ key : String, key ∉ AGENT_KEYWORDS →
        ∀ kv ∈ kwargs, kv.1 ≠ key := by
      intro key hkey kv hmem e
      exact hkey (e ▸ hkeys kv hmem)
    have h1 := kwpop_of_not_elem "clip_threshold" (1 / 5) kwargs
      (hnone "clip_threshold" (by simp [AGENT_KEYWORDS]))
    have h2 := kwpop_of_not_elem "epochs" 4 kwargs
      (hnone "epochs" (by simp [AGENT_KEYWORDS]))
    have h3 := kwpop_of_not_elem "minibatches" 16 kwargs
      (hnone "minibatches" (by simp [AGENT_KEYWORDS]))
    simp only [PPOAgent_init, Agent_init, hall, if_true, h1, h2, h3] at hok
    cases hok
    exact ⟨rfl, rfl, rfl⟩

/-- Witness for C4: `PPOAgent(actor_critic, epochs=2)` raises `TypeError`,
and the default construction yields clip threshold `0.2`, `4` epochs, `16`
minibatches. -/
theorem ppo_init_rejects_own_kwargs_witness :
    PPOAgent_init [("epochs", 2)] = Except.error PyError.typeError
      ∧ ((1 : ℚ) / 5 = 1 / 5 ∧ (4 : ℚ) = 4 ∧ (16 : ℚ) = 16) :=
  ⟨(ppo_init_rejects_own_kwargs [("epochs", 2)]).1
      ⟨("epochs", 2), List.mem_cons_self _ _, Or.inr (Or.inl rfl)⟩,
    (ppo_init_rejects_own_kwargs []).2 ⟨1 / 5, 4, 16⟩ rfl⟩

section FoldSumLemmas

/-- Accumulating with `+` over a list starting from `a` adds the mapped
sum. -/
theorem foldl_add_map (g : ℕ → ℚ) :
    ∀ (l : List ℕ) (a : ℚ),
      l.foldl (fun acc x => acc + g x) a = a + (l.map g).sum
  | [], a => by simp
  | x :: l, a => by
    simp only [List.foldl, List.map, List.sum_cons]
    rw [foldl_add_map g l (a + g x)]
    ring

/-- The nested accumulation of `PPOAgent.update` equals the sum of all
per-batch losses over all executed minibatch steps. -/
theorem update_loss_total_eq_sum (e k : ℕ) (f : ℕ → ℕ → ℚ) :
    (List.range e).foldl
      (fun acc ep => (List.range k).foldl
        (fun acc2 b => acc2 + f ep b) acc) 0
      = ((List.range e).flatMap (fun ep => (List.range k).map (f ep))).sum := by
  have h : ∀ (l : List ℕ) (a : ℚ),
      l.foldl (fun acc ep => (List.range k).foldl
        (fun acc2 b => acc2 + f ep b) acc) a
        = a + (l.flatMap (fun ep => (List.range k).map (f ep))).sum := by
    intro l
    induction l with
    | nil => intro a; simp
    | cons x l ih =>
      intro a
      simp only [List.foldl, List.flatMap_cons, List.sum_append]
      rw [foldl_add_map (f x) (List.range k) a, ih]
      ring
  simpa using h (List.range e) 0

/-- Length of the executed-step list: `epochs * batches_yielded`. -/
theorem executed_length (e k : ℕ) (f : ℕ → ℕ → ℚ) :
    ((List.range e).flatMap (fun ep => (List.range k).map (f ep))).length
      = e * k := by
  induction e with
  | zero => simp
  | succ e ih =>
    rw [List.range_succ, List.flatMap_append]
    simp [ih, Nat.succ_mul]

end FoldSumLemmas

/-- C9: each reported loss equals the accumulated per-step sum divided by the
configured `epochs * minibatches`, whatever number of batches the generator
yields per epoch; it coincides with the true per-step mean when each epoch
yields exactly `minibatches` batches, and (for a non-zero sum and non-empty
execution) only then. -/
theorem update_reported_loss_denominator :
    ∀ (e k m : ℕ) (f : ℕ → ℕ → ℚ),
      (update_reported_loss e k m f
        = ((List.range e).flatMap (fun ep => (List.range k).map (f ep))).sum
          / ((e * m : ℕ) : ℚ))
      ∧ (k = m →
          update_reported_loss e k m f
            = ((List.range e).flatMap (fun ep =>
                (List.range k).map (f ep))).sum
              / (((List.range e).flatMap (fun ep =>
                (List.range k).map (f ep))).length : ℚ))
      ∧ (((List.range e).flatMap (fun ep => (List.range k).map (f ep))).sum
            ≠ 0 →
         0 < e → 0 < k → 0 < m →
         update_reported_loss e k m f
           = ((List.range e).flatMap (fun ep =>
               (List.range k).map (f ep))).sum
             / (((List.range e).flatMap (fun ep =>
               (List.range k).map (f ep))).length : ℚ) →
         k = m) := by
  intro e k m f
  have hmain : update_reported_loss e k m f
      = ((List.range e).flatMap (fun ep => (List.range k).map (f ep))).sum
        / ((e * m : ℕ) : ℚ) := by
    simp only [update_reported_loss, update_loss_total_eq_sum]
  refine ⟨hmain, ?_, ?_⟩
  · rintro rfl
    rw [hmain, executed_length]
  · intro hsum he hk hm heq
    rw [hmain, executed_length] at heq
    by_contra hne
    apply hsum
    by_contra hsum2
    have hek : ((e * k : ℕ) : ℚ) ≠ 0 := by
      push_cast
      positivity
    have hem : ((e * m : ℕ) : ℚ) ≠ 0 := by
      push_cast
      positivity
    have := heq
    rw [div_eq_div_iff hem hek] at this
    have hcast : ((e * m : ℕ) : ℚ) = ((e * k : ℕ) : ℚ) :=
      (mul_left_cancel₀ hsum2 (by linarith [this])).symm
    have : e * m = e * k := Nat.cast_injective hcast
    exact hne (Nat.eq_of_mul_eq_mul_left he this).symm

/-- Witness for C9: one epoch of two yielded batches with loss `3` each and
`minibatches = 2` reports the true per-step mean `3`. -/
theorem update_reported_loss_denominator_witness :
    update_reported_loss 1 2 2 (fun _ _ => 3)
      = ((List.range 1).flatMap (fun _ =>
          (List.range 2).map (fun _ => (3 : ℚ)))).sum
        / (((List.range 1).flatMap (fun _ =>
          (List.range 2).map (fun _ => (3 : ℚ)))).length : ℚ) :=
  (update_reported_loss_denominator 1 2 2 (fun _ _ => 3)).2.1 rfl

section TraceLemmas

/-- The events of the collection loop are `steps` copies of `stepEvents`,
independent of the deque and the step infos. -/
theorem collectGo_fst (infos : ℕ → List (Bool × ℕ)) :
    ∀ (s base : ℕ) (q : List ℚ),
      (collectGo infos base s q).1 = List.flatten (List.replicate s stepEvents)
  | 0, _, _ => rfl
  | s + 1, base, q => by
    simp only [collectGo, List.replicate_succ, List.flatten_cons]
    rw [collectGo_fst infos s (base + 1)
      (recordEpisodes q (infos base))]

/-- Starting from the deque state reached after `base` global steps, the
collection loop ends in the deque state after `base + s` global steps. -/
theorem collectGo_snd (infos : ℕ → List (Bool × ℕ)) :
    ∀ (s base : ℕ),
      (collectGo infos base s (qState infos base)).2
        = qState infos (base + s)
  | 0, base => by simp [collectGo]
  | s + 1, base => by
    have hq : recordEpisodes (qState infos base) (infos base)
        = qState infos (base + 1) := rfl
    simp only [collectGo, hq]
    rw [collectGo_snd infos s (base + 1)]
    congr 1
    omega

/-- Truthiness of a list matches emptiness. -/
theorem if_isEmpty (l : List ℚ) (A B : List Event) :
    (if l.isEmpty then A else B) = (if l = [] then A else B) := by
  cases l <;> simp

/-- Closed form of the outer training loop: iteration `i + t` of `learn`
contributes exactly the phase sequence `iterationShape (i + t)`. -/
theorem learnGo_closed (infos : ℕ → List (Bool × ℕ))
    (steps e k s : ℕ) :
    ∀ (fuel i : ℕ),
      learnGo infos steps e k s i fuel (qState infos (i * steps))
        = (List.range fuel).flatMap
            (fun t => iterationShape infos steps e k s (i + t))
  | 0, _ => rfl
  | fuel + 1, i => by
    have hsnd : (collectGo infos (i * steps) steps
        (qState infos (i * steps))).2 = qState infos ((i + 1) * steps) := by
      rw [collectGo_snd infos steps (i * steps)]
      congr 1
      ring
    simp only [learnGo, iterationEvents,
      collectGo_fst infos steps (i * steps) (qState infos (i * steps)), hsnd]
    rw [learnGo_closed infos steps e k s fuel (i + 1)]
    rw [List.range_succ_eq_map, List.flatMap_cons, List.flatMap_map]
    have hfun : (fun t => iterationShape infos steps e k s (i + 1 + t))
        = ((fun t => iterationShape infos steps e k s (i + t)) ∘ Nat.succ) := by
      funext t
      simp only [Function.comp]
      congr 1
      omega
    rw [hfun]
    simp only [iterationShape, Nat.add_zero, if_isEmpty, List.append_assoc]
    rfl

end TraceLemmas

section CountLemmas

/-- Event count in a flattened replication. -/
theorem count_flatten_replicate (c : Event) (l : List Event) :
    ∀ n : ℕ, (List.flatten (List.replicate n l)).count c = n * l.count c
  | 0 => by simp
  | n + 1 => by
    simp only [List.replicate_succ, List.flatten_cons, List.count_append,
      count_flatten_replicate c l n]
    ring

/-- Event count in a constant flat map. -/
theorem count_flatMap_const (c : Event) (l : List Event) :
    ∀ L : List ℕ, (L.flatMap (fun _ => l)).count c = L.length * l.count c
  | [] => by simp
  | _ :: L => by
    simp only [List.flatMap_cons, List.count_append, List.length_cons,
      count_flatMap_const c l L]
    ring

/-- Event count in a flat map whose pieces all have the same count. -/
theorem count_flatMap_of_count (c : Event) (g : ℕ → List Event) (v : ℕ)
    (h : ∀ j, (g j).count c = v) :
    ∀ L : List ℕ, (L.flatMap g).count c = L.length * v
  | [] => by simp
  | j :: L => by
    simp only [List.flatMap_cons, List.count_append, List.length_cons, h j,
      count_flatMap_of_count c g v h L]
    try ring

/-- Event count in the PPO update phase. -/
theorem count_update_events (c : Event) (e k : ℕ) :
    (PPOAgent_update_events e k).count c
      = ([Event.computeAdvantages, Event.schedulerStep].count c
          + e * (k * batchEvents.count c) + [Event.afterUpdate].count c) := by
  simp only [PPOAgent_update_events, List.count_append]
  rw [count_flatMap_of_count c _ (k * batchEvents.count c)
    (fun _ => by rw [count_flatMap_const c batchEvents, List.length_range])]
  rw [List.length_range]
  try ring

/-- The number of optimizer steps in one iteration:
`epochs * batches_yielded`, one per executed minibatch. -/
theorem count_optimizer_steps (infos : ℕ → List (Bool × ℕ))
    (steps e k s j : ℕ) :
    (iterationShape infos steps e k s j).count Event.optimizerStep = e * k := by
  simp only [iterationShape, List.count_append, count_flatten_replicate,
    count_update_events]
  have h1 : (List.count Event.optimizerStep stepEvents) = 0 := by decide
  have h2 : batchEvents.count Event.optimizerStep = 1 := by decide
  rw [h1, h2]
  have h3 : (if qState infos ((j + 1) * steps) = [] then ([] : List Event)
      else [Event.logMetrics]).count Event.optimizerStep = 0 := by
    split <;> decide
  have h4 : (if save_model j s then [Event.saveCheckpoint (model_path j)]
      else ([] : List Event)).count Event.optimizerStep = 0 := by
    split
    · simp [List.count_cons]
    · rfl
  rw [h3, h4]
  have h5 : List.count Event.optimizerStep
      [Event.bootstrapValue, Event.computeReturns] = 0 := by decide
  have h6 : List.count Event.optimizerStep
      [Event.computeAdvantages, Event.schedulerStep] = 0 := by decide
  have h7 : List.count Event.optimizerStep [Event.afterUpdate] = 0 := by decide
  rw [h5, h6, h7]
  ring

/-- The number of `actor_critic.act` calls in one iteration: `steps`, one per
collected step. -/
theorem count_act_steps (infos : ℕ → List (Bool × ℕ))
    (steps e k s j : ℕ) :
    (iterationShape infos steps e k s j).count Event.act = steps := by
  simp only [iterationShape, List.count_append, count_flatten_replicate,
    count_update_events]
  have h1 : (List.count Event.act stepEvents) = 1 := by decide
  have h2 : batchEvents.count Event.act = 0 := by decide
  rw [h1, h2]
  have h3 : (if qState infos ((j + 1) * steps) = [] then ([] : List Event)
      else [Event.logMetrics]).count Event.act = 0 := by
    split <;> decide
  have h4 : (if save_model j s then [Event.saveCheckpoint (model_path j)]
      else ([] : List Event)).count Event.act = 0 := by
    split
    · simp [List.count_cons]
    · rfl
  rw [h3, h4]
  have h5 : List.count Event.act
      [Event.bootstrapValue, Event.computeReturns] = 0 := by decide
  have h6 : List.count Event.act
      [Event.computeAdvantages, Event.schedulerStep] = 0 := by decide
  have h7 : List.count Event.act [Event.afterUpdate] = 0 := by decide
  rw [h5, h6, h7]
  ring

/-- C2: every iteration of the training loop performs, in order, exactly
`steps_per_update` act/step/insert collection steps, then the bootstrap value,
then the return back-fill, then the PPO update (`epochs` epochs of one
gradient step per yielded minibatch), then the logging/checkpoint
bookkeeping, and the cycle repeats; each iteration contains exactly `steps`
act calls and exactly `epochs * batches_yielded` optimizer steps. -/
theorem training_loop_phase_order :
    ∀ (infos : ℕ → List (Bool × ℕ)) (steps e k s n : ℕ),
      learnEvents infos steps e k s n
        = (List.range n).flatMap (iterationShape infos steps e k s)
      ∧ (∀ j, (iterationShape infos steps e k s j).count Event.act = steps)
      ∧ (∀ j, (iterationShape infos steps e k s j).count Event.optimizerStep
          = e * k) := by
  intro infos steps e k s n
  refine ⟨?_, fun j => count_act_steps infos steps e k s j,
    fun j => count_optimizer_steps infos steps e k s j⟩
  have h0 : (qState infos (0 * steps)) = [] := by
    rw [Nat.zero_mul]
    rfl
  have := learnGo_closed infos steps e k s n 0
  rw [h0] at this
  rw [learnEvents, this]
  simp

/-- The number of `envs.step` calls in one iteration: `steps`. -/
theorem count_envStep_steps (infos : ℕ → List (Bool × ℕ))
    (steps e k s j : ℕ) :
    (iterationShape infos steps e k s j).count Event.envStep = steps := by
  simp only [iterationShape, List.count_append, count_flatten_replicate,
    count_update_events]
  have h1 : (List.count Event.envStep stepEvents) = 1 := by decide
  have h2 : batchEvents.count Event.envStep = 0 := by decide
  rw [h1, h2]
  have h3 : (if qState infos ((j + 1) * steps) = [] then ([] : List Event)
      else [Event.logMetrics]).count Event.envStep = 0 := by
    split <;> decide
  have h4 : (if save_model j s then [Event.saveCheckpoint (model_path j)]
      else ([] : List Event)).count Event.envStep = 0 := by
    split
    · simp [List.count_cons]
    · rfl
  rw [h3, h4]
  have h5 : List.count Event.envStep
      [Event.bootstrapValue, Event.computeReturns] = 0 := by decide
  have h6 : List.count Event.envStep
      [Event.computeAdvantages, Event.schedulerStep] = 0 := by decide
  have h7 : List.count Event.envStep [Event.afterUpdate] = 0 := by decide
  rw [h5, h6, h7]
  ring

/-- The number of `compute_returns` calls in one iteration: one. -/
theorem count_computeReturns_one (infos : ℕ → List (Bool × ℕ))
    (steps e k s j : ℕ) :
    (iterationShape infos steps e k s j).count Event.computeReturns = 1 := by
  simp only [iterationShape, List.count_append, count_flatten_replicate,
    count_update_events]
  have h1 : (List.count Event.computeReturns stepEvents) = 0 := by decide
  have h2 : batchEvents.count Event.computeReturns = 0 := by decide
  rw [h1, h2]
  have h3 : (if qState infos ((j + 1) * steps) = [] then ([] : List Event)
      else [Event.logMetrics]).count Event.computeReturns = 0 := by
    split <;> decide
  have h4 : (if save_model j s then [Event.saveCheckpoint (model_path j)]
      else ([] : List Event)).count Event.computeReturns = 0 := by
    split
    · simp [List.count_cons]
    · rfl
  rw [h3, h4]
  have h5 : List.count Event.computeReturns
      [Event.bootstrapValue, Event.computeReturns] = 1 := by decide
  have h6 : List.count Event.computeReturns
      [Event.computeAdvantages, Event.schedulerStep] = 0 := by decide
  have h7 : List.count Event.computeReturns [Event.afterUpdate] = 0 := by
    decide
  rw [h5, h6, h7]
  ring

/-- C6: with `n = total_steps // (num_envs * steps_per_update)` the loop runs
exactly `n` update cycles (one `compute_returns` per cycle), performs
`n * steps_per_update` vectorized environment steps — i.e.
`n * steps_per_update * num_envs` transitions — which is at most
`total_steps`, with equality exactly when `num_envs * steps_per_update`
divides `total_steps`. -/
theorem rollout_budget :
    ∀ (infos : ℕ → List (Bool × ℕ)) (total num_envs steps e k s : ℕ),
      0 < num_envs → 0 < steps →
      ((learnEvents infos steps e k s
          (num_updates total num_envs steps)).count Event.envStep
        = num_updates total num_envs steps * steps)
      ∧ ((learnEvents infos steps e k s
          (num_updates total num_envs steps)).count Event.computeReturns
        = num_updates total num_envs steps)
      ∧ num_updates total num_envs steps * steps * num_envs ≤ total
      ∧ (num_updates total num_envs steps * steps * num_envs = total
          ↔ (num_envs * steps) ∣ total) := by
  intro infos total num_envs steps e k s _ _
  have h0 : qState infos (0 * steps) = [] := by
    rw [Nat.zero_mul]
    rfl
  have hclosed := learnGo_closed infos steps e k s
    (num_updates total num_envs steps) 0
  rw [h0] at hclosed
  have hlearn : learnEvents infos steps e k s (num_updates total num_envs steps)
      = (List.range (num_updates total num_envs steps)).flatMap
        (fun t => iterationShape infos steps e k s (0 + t)) := hclosed
  have hmul : num_updates total num_envs steps * (num_envs * steps)
      = num_updates total num_envs steps * steps * num_envs := by ring
  refine ⟨?_, ?_, ?_, ?_⟩
  · rw [hlearn, count_flatMap_of_count Event.envStep _ steps
      (fun j => count_envStep_steps infos steps e k s (0 + j)),
      List.length_range]
  · rw [hlearn, count_flatMap_of_count Event.computeReturns _ 1
      (fun j => count_computeReturns_one infos steps e k s (0 + j)),
      List.length_range, Nat.mul_one]
  · rw [← hmul, num_updates]
    exact Nat.div_mul_le_self total (num_envs * steps)
  · constructor
    · intro heq
      refine ⟨num_updates total num_envs steps, ?_⟩
      rw [show num_envs * steps * num_updates total num_envs steps
          = num_updates total num_envs steps * steps * num_envs from by ring,
        heq]
    · intro hdvd
      rw [← hmul, num_updates]
      exact Nat.div_mul_cancel hdvd

/-- Witness for C6: `total_steps = 6`, `num_envs = 2`, `steps_per_update = 3`
gives one update cycle collecting all `6` transitions. -/
theorem rollout_budget_witness :
    (learnEvents (fun _ => []) 3 1 1 2 (num_updates 6 2 3)).count
        Event.envStep = num_updates 6 2 3 * 3
      ∧ num_updates 6 2 3 * 3 * 2 = 6 := by
  have h := rollout_budget (fun _ => []) 6 2 3 1 1 2 (by decide) (by decide)
  exact ⟨h.1, h.2.2.2.mpr (by decide)⟩

section DequeLemmas

/-- Episode recording over one step is a fold of deque appends over that
step's completion fractions. -/
theorem recordEpisodes_eq_foldl :
    ∀ (l : List (Bool × ℕ)) (q : List ℚ),
      recordEpisodes q l = (stepCompletions l).foldl (dequeAppend 16) q
  | [], _ => rfl
  | di :: l, q => by
    cases h : di.1 <;>
      simp only [recordEpisodes, stepCompletions, List.foldl_cons,
        List.filterMap_cons, h, if_true, if_false] <;>
      exact recordEpisodes_eq_foldl l _

/-- A deque append keeps the length bound. -/
theorem dequeAppend_length (q : List ℚ) (x : ℚ) (h : q.length ≤ 16) :
    (dequeAppend 16 q x).length ≤ 16 := by
  unfold dequeAppend
  split <;> simp <;> omega

/-- Folding deque appends over `l` from a deque holding at most 16 elements
keeps exactly the last 16 elements of the full stream. -/
theorem foldl_dequeAppend_takeLast :
    ∀ (l q : List ℚ), q.length ≤ 16 →
      l.foldl (dequeAppend 16) q = takeLast 16 (q ++ l)
  | [], q, h => by
    simp only [List.foldl_nil, List.append_nil, takeLast,
      Nat.sub_eq_zero_of_le h, List.drop_zero]
  | x :: l, q, h => by
    simp only [List.foldl_cons]
    rw [foldl_dequeAppend_takeLast l (dequeAppend 16 q x)
      (dequeAppend_length q x h)]
    unfold dequeAppend
    by_cases hq : q.length < 16
    · rw [if_pos hq, List.append_assoc, List.singleton_append]
    · rw [if_neg hq]
      have h16 : q.length = 16 := by omega
      have hdrop : (q.drop 1 ++ [x]) ++ l = (q ++ x :: l).drop 1 := by
        rw [List.drop_append_of_le_length (by omega), List.append_assoc,
          List.singleton_append]
      rw [hdrop]
      simp only [takeLast, List.length_drop, List.drop_drop,
        List.length_append, List.length_cons]
      congr 1
      omega

/-- The last 16 of (the last 16 of `a`, then `b`) are the last 16 of `a ++ b`. -/
theorem takeLast_takeLast_append (a b : List ℚ) :
    takeLast 16 (takeLast 16 a ++ b) = takeLast 16 (a ++ b) := by
  by_cases ha : a.length ≤ 16
  · have h0 : takeLast 16 a = a := by
      rw [takeLast, Nat.sub_eq_zero_of_le ha, List.drop_zero]
    rw [h0]
  · have hle : a.length - 16 ≤ a.length := by omega
    have h1 : takeLast 16 a ++ b = (a ++ b).drop (a.length - 16) := by
      rw [takeLast, List.drop_append_of_le_length hle]
    rw [h1]
    simp only [takeLast, List.length_drop, List.length_append,
      List.drop_drop]
    congr 1
    omega

/-- One more global step extends the completion stream by that step's
completions. -/
theorem completions_succ (infos : ℕ → List (Bool × ℕ)) (m : ℕ) :
    completions infos (m + 1)
      = completions infos m ++ stepCompletions (infos m) := by
  rw [completions, List.range_succ, List.flatMap_append, completions]
  simp

/-- The `episode_rewards` deque holds exactly the most recent (at most 16)
level-completion fractions, and never more than 16 of them. -/
theorem qState_takeLast (infos : ℕ → List (Bool × ℕ)) :
    ∀ m : ℕ, qState infos m = takeLast 16 (completions infos m)
      ∧ (qState infos m).length ≤ 16
  | 0 => ⟨rfl, by simp [qState]⟩
  | m + 1 => by
    obtain ⟨ih1, ih2⟩ := qState_takeLast infos m
    have h1 : qState infos (m + 1)
        = takeLast 16 (completions infos (m + 1)) := by
      show recordEpisodes (qState infos m) (infos m) = _
      rw [recordEpisodes_eq_foldl,
        foldl_dequeAppend_takeLast _ _ ih2, ih1,
        takeLast_takeLast_append, ← completions_succ]
    refine ⟨h1, ?_⟩
    rw [h1]
    simp only [takeLast, List.length_drop]
    omega

/-- The deque is empty exactly when no episode has completed yet. -/
theorem takeLast_eq_nil_iff (l : List ℚ) : takeLast 16 l = [] ↔ l = [] := by
  rw [takeLast, List.drop_eq_nil_iff]
  constructor
  · intro h
    have : l.length = 0 := by omega
    exact List.length_eq_zero.mp this
  · rintro rfl
    simp

end DequeLemmas

section LogMembership

/-- No `logMetrics` event occurs during collection. -/
theorem logMetrics_not_in_collect (steps : ℕ) :
    Event.logMetrics ∉ List.flatten (List.replicate steps stepEvents) := by
  rw [← List.count_eq_zero, count_flatten_replicate]
  have h : List.count Event.logMetrics stepEvents = 0 := by decide
  rw [h, Nat.mul_zero]

/-- No `logMetrics` event occurs inside the PPO update. -/
theorem logMetrics_not_in_update (e k : ℕ) :
    Event.logMetrics ∉ PPOAgent_update_events e k := by
  rw [← List.count_eq_zero, count_update_events]
  have h1 : List.count Event.logMetrics
      [Event.computeAdvantages, Event.schedulerStep] = 0 := by decide
  have h2 : batchEvents.count Event.logMetrics = 0 := by decide
  have h3 : List.count Event.logMetrics [Event.afterUpdate] = 0 := by decide
  rw [h1, h2, h3]
  ring

end LogMembership

/-- C7: during iteration `i` the metrics sink receives data exactly when at
least one episode has completed in the first `(i+1) * steps` collection steps
(the deque is non-empty); the deque always holds the most recent at most 16
completion fractions, each recorded as `x_pos / 3161`. -/
theorem metrics_logging_iff_episode_completed :
    ∀ (infos : ℕ → List (Bool × ℕ)) (steps e k s i m : ℕ),
      (Event.logMetrics ∈ (iterationEvents infos steps e k s i
          (qState infos (i * steps))).1
        ↔ completions infos ((i + 1) * steps) ≠ [])
      ∧ qState infos m = takeLast 16 (completions infos m)
      ∧ (qState infos m).length ≤ 16
      ∧ (∀ x ∈ qState infos m, ∃ j < m, ∃ di ∈ infos j,
          di.1 = true ∧ x = (di.2 : ℚ) / (MAX_X : ℚ)) := by
  intro infos steps e k s i m
  have hq := qState_takeLast infos
  refine ⟨?_, (hq m).1, (hq m).2, ?_⟩
  · have hsnd : (collectGo infos (i * steps) steps
        (qState infos (i * steps))).2 = qState infos ((i + 1) * steps) := by
      rw [collectGo_snd infos steps (i * steps)]
      congr 1
      ring
    simp only [iterationEvents,
      collectGo_fst infos steps (i * steps) (qState infos (i * steps)),
      hsnd, List.mem_append]
    have hnotc := logMetrics_not_in_collect steps
    have hnotu := logMetrics_not_in_update e k
    have hnotb : Event.logMetrics
        ∉ [Event.bootstrapValue, Event.computeReturns] := by decide
    have hnots : Event.logMetrics ∉ (if save_model i s then
        [Event.saveCheckpoint (model_path i)] else ([] : List Event)) := by
      split
      · simp
      · simp
    have hnil : qState infos ((i + 1) * steps) = []
        ↔ completions infos ((i + 1) * steps) = [] := by
      rw [(hq ((i + 1) * steps)).1, takeLast_eq_nil_iff]
    constructor
    · rintro ((((hc | hb) | hu) | hl) | hs)
      · exact absurd hc hnotc
      · exact absurd hb hnotb
      · exact absurd hu hnotu
      · rw [if_isEmpty] at hl
        intro hnone
        rw [if_pos (hnil.mpr hnone)] at hl
        exact absurd hl (List.not_mem_nil Event.logMetrics)
      · exact absurd hs hnots
    · intro hne
      refine Or.inl (Or.inr ?_)
      rw [if_isEmpty, if_neg (fun h0 => hne (hnil.mp h0))]
      exact List.mem_singleton.mpr rfl
  · intro x hx
    have hmem : x ∈ completions infos m := by
      rw [(hq m).1, takeLast] at hx
      exact List.mem_of_mem_drop hx
    rw [completions, List.mem_flatMap] at hmem
    obtain ⟨j, hj, hxj⟩ := hmem
    rw [List.mem_range] at hj
    rw [stepCompletions, List.mem_filterMap] at hxj
    obtain ⟨di, hdi, hval⟩ := hxj
    refine ⟨j, hj, di, hdi, ?_⟩
    cases h : di.1 with
    | false => rw [h] at hval; exact absurd hval (by simp)
    | true =>
      rw [h] at hval
      simp only [if_true] at hval
      exact ⟨rfl, (Option.some_injective ℚ hval).symm⟩

section SaveMembership

/-- No checkpoint event occurs during collection. -/
theorem saveCheckpoint_not_in_collect (p : String) (steps : ℕ) :
    Event.saveCheckpoint p ∉ List.flatten (List.replicate steps stepEvents) := by
  intro h
  rw [List.mem_flatten] at h
  obtain ⟨l, hl, hm⟩ := h
  rw [List.eq_of_mem_replicate hl] at hm
  simp [stepEvents] at hm

/-- No checkpoint event occurs inside the PPO update. -/
theorem saveCheckpoint_not_in_update (p : String) (e k : ℕ) :
    Event.saveCheckpoint p ∉ PPOAgent_update_events e k := by
  intro h
  simp only [PPOAgent_update_events, List.mem_append, List.mem_flatMap] at h
  rcases h with (h | ⟨a, _, h⟩) | h
  · simp at h
  · obtain ⟨b, _, hm⟩ := h
    simp [batchEvents] at hm
  · simp at h

end SaveMembership

/-- C5 counterexample: with `save_interval = 1` the checkpoint condition
holds at update step `0`, so a checkpoint (path `models/model_1.bin`) is
written at the very first update — the claim's "never at update 0" fails. -/
theorem checkpoint_written_at_update_zero :
    save_model 0 1 = true
      ∧ Event.saveCheckpoint (model_path 0)
          ∈ (iterationEvents (fun _ => []) 1 1 1 1 0 []).1 := by
  constructor
  · rfl
  · simp only [iterationEvents, List.mem_append]
    refine Or.inr ?_
    have hs : save_model 0 1 = true := rfl
    rw [if_pos hs]
    exact List.mem_singleton.mpr rfl

/-- C5 (amended): a checkpoint is written in iteration `i` exactly when
`i % save_interval = save_interval - 1` (every `save_interval`-th update,
and at update `0` only in the degenerate case `save_interval = 1`), to path
`models/model_{i+1}.bin`. -/
theorem checkpoint_schedule :
    ∀ (infos : ℕ → List (Bool × ℕ)) (steps e k s i : ℕ) (q : List ℚ),
      ((Event.saveCheckpoint (model_path i)
          ∈ (iterationEvents infos steps e k s i q).1)
        ↔ save_model i s = true)
      ∧ (save_model i s = true ↔ i % s = s - 1)
      ∧ (2 ≤ s → save_model 0 s = false)
      ∧ save_model 0 1 = true
      ∧ model_path i = "models/model_" ++ toString (i + 1) ++ ".bin" := by
  intro infos steps e k s i q
  refine ⟨?_, ?_, ?_, rfl, rfl⟩
  · simp only [iterationEvents,
      collectGo_fst infos steps (i * steps) q, List.mem_append]
    have h1 := saveCheckpoint_not_in_collect (model_path i) steps
    have h2 := saveCheckpoint_not_in_update (model_path i) e k
    have h3 : Event.saveCheckpoint (model_path i)
        ∉ [Event.bootstrapValue, Event.computeReturns] := by simp
    have h4 : Event.saveCheckpoint (model_path i)
        ∉ (if (collectGo infos (i * steps) steps q).2.isEmpty then
            ([] : List Event) else [Event.logMetrics]) := by
      split
      · simp
      · simp
    constructor
    · rintro ((((hc | hb) | hu) | hl) | hs)
      · exact absurd hc h1
      · exact absurd hb h3
      · exact absurd hu h2
      · exact absurd hl h4
      · by_contra hfalse
        rw [Bool.not_eq_true] at hfalse
        rw [if_neg (by rw [hfalse]; exact Bool.false_ne_true)] at hs
        exact List.not_mem_nil _ hs
    · intro htrue
      refine Or.inr ?_
      rw [if_pos htrue]
      exact List.mem_singleton.mpr rfl
  · rw [save_model, beq_iff_eq]
  · intro hs
    rw [save_model]
    rw [Nat.zero_mod]
    have hne : (0 : ℕ) ≠ s - 1 := by omega
    exact beq_eq_false_iff_ne.mpr hne

/-- Witness for C5 (amended): with the default `save_interval = 128` the
first checkpoint is at update step `127` and none at update step `0`. -/
theorem checkpoint_schedule_witness :
    save_model 127 128 = true ∧ save_model 0 128 = false
      ∧ model_path 127 = "models/model_128.bin" := by
  have h := checkpoint_schedule (fun _ => []) 1 1 1 128 127 []
  have h0 := checkpoint_schedule (fun _ => []) 1 1 1 128 0 []
  refine ⟨h.2.1.mpr (by decide), h0.2.2.1 (by norm_num), ?_⟩
  rw [h.2.2.2.2]
  decide

section RunLemmas

/-- If every call succeeds, the strict sequential run succeeds. -/
theorem runEvents_all_ok {ε : Type} (outcome : Event → Except ε Unit) :
    ∀ l : List Event, (∀ ev ∈ l, outcome ev = Except.ok ()) →
      runEvents outcome l = Except.ok ()
  | [], _ => rfl
  | e :: l, h => by
    have he := h e (List.mem_cons_self e l)
    show (match outcome e with
      | Except.ok _ => runEvents outcome l
      | Except.error err => Except.error err) = Except.ok ()
    rw [he]
    exact runEvents_all_ok outcome l
      (fun ev hm => h ev (List.mem_cons_of_mem e hm))

/-- The first failing call determines the result, unchanged. -/
theorem runEvents_first_error {ε : Type} (outcome : Event → Except ε Unit)
    (err : ε) :
    ∀ (l1 : List Event) (ev : Event) (l2 : List Event),
      (∀ x ∈ l1, outcome x = Except.ok ()) →
      outcome ev = Except.error err →
      runEvents outcome (l1 ++ ev :: l2) = Except.error err
  | [], ev, l2, _, herr => by
    show (match outcome ev with
      | Except.ok _ => runEvents outcome l2
      | Except.error e2 => Except.error e2) = Except.error err
    rw [herr]
  | x :: l1, ev, l2, h, herr => by
    have hx := h x (List.mem_cons_self x l1)
    show (match outcome x with
      | Except.ok _ => runEvents outcome (l1 ++ ev :: l2)
      | Except.error e2 => Except.error e2) = Except.error err
    rw [hx]
    exact runEvents_first_error outcome err l1 ev l2
      (fun y hy => h y (List.mem_cons_of_mem x hy)) herr

end RunLemmas

/-- C8: neither `learn` nor `PPOAgent.update` has any retry, recovery or
partial-failure branch: under a fallible runtime their call sequences either
run to completion, or return the first raised error unchanged. -/
theorem no_error_recovery :
    ∀ (ε : Type) (outcome : Event → Except ε Unit)
      (infos : ℕ → List (Bool × ℕ)) (steps e k s n : ℕ),
      ((∀ ev ∈ learnEvents infos steps e k s n, outcome ev = Except.ok ()) →
        runEvents outcome (learnEvents infos steps e k s n) = Except.ok ())
      ∧ (∀ (l1 : List Event) (ev : Event) (l2 : List Event) (err : ε),
          learnEvents infos steps e k s n = l1 ++ ev :: l2 →
          (∀ x ∈ l1, outcome x = Except.ok ()) →
          outcome ev = Except.error err →
          runEvents outcome (learnEvents infos steps e k s n)
            = Except.error err)
      ∧ ((∀ ev ∈ PPOAgent_update_events e k, outcome ev = Except.ok ()) →
        runEvents outcome (PPOAgent_update_events e k) = Except.ok ())
      ∧ (∀ (l1 : List Event) (ev : Event) (l2 : List Event) (err : ε),
          PPOAgent_update_events e k = l1 ++ ev :: l2 →
          (∀ x ∈ l1, outcome x = Except.ok ()) →
          outcome ev = Except.error err →
          runEvents outcome (PPOAgent_update_events e k)
            = Except.error err) := by
  intro ε outcome infos steps e k s n
  refine ⟨runEvents_all_ok outcome _, ?_, runEvents_all_ok outcome _, ?_⟩
  · intro l1 ev l2 err hsplit h1 herr
    rw [hsplit]
    exact runEvents_first_error outcome err l1 ev l2 h1 herr
  · intro l1 ev l2 err hsplit h1 herr
    rw [hsplit]
    exact runEvents_first_error outcome err l1 ev l2 h1 herr

/-- Witness for C8: a runtime that fails on `envs.step` makes the one-cycle
trace return exactly that error. -/
theorem no_error_recovery_witness :
    runEvents (fun ev => if ev = Event.envStep then Except.error 7
        else Except.ok ()) (learnEvents (fun _ => []) 1 1 1 2 1)
      = Except.error 7 := by
  have h := (no_error_recovery ℕ
    (fun ev => if ev = Event.envStep then Except.error 7 else Except.ok ())
    (fun _ => []) 1 1 1 2 1).2.1
  refine h [Event.act] Event.envStep
    [Event.insertExperience, Event.bootstrapValue, Event.computeReturns,
     Event.computeAdvantages, Event.schedulerStep, Event.evalActions,
     Event.zeroGrad, Event.backward, Event.clipGradNorm,
     Event.optimizerStep, Event.afterUpdate] 7 rfl ?_ rfl
  intro x hx
  rw [List.mem_singleton] at hx
  subst hx
  rfl

/-- Witness for C7: one environment finishing at `x_pos = 3161` on global
step `0` leaves the deque as the last completions, and its entry comes from a
done transition's `x_pos / 3161`. -/
theorem metrics_logging_witness :
    qState (fun _ => [(true, 3161)]) 1
        = takeLast 16 (completions (fun _ => [(true, 3161)]) 1)
      ∧ (∃ j < 1, ∃ di ∈ ([(true, 3161)] : List (Bool × ℕ)),
          di.1 = true ∧ (1 : ℚ) = (di.2 : ℚ) / (MAX_X : ℚ)) := by
  have h := metrics_logging_iff_episode_completed
    (fun _ => [(true, 3161)]) 1 1 1 2 0 1
  have hmem : (1 : ℚ) ∈ qState (fun _ => [(true, 3161)]) 1 := by
    have hq1 : qState (fun _ => [(true, 3161)]) 1 = [1] := by
      show recordEpisodes [] [(true, 3161)] = [1]
      norm_num [recordEpisodes, dequeAppend, MAX_X]
    rw [hq1]
    exact List.mem_singleton.mpr rfl
  exact ⟨h.2.1, h.2.2.2 1 hmem⟩
